import Mathlib

/-!
Verification of the SmashLang runtime support library (src/src/runtime.c,
src/src/simple_regex.c) against its natural-language specification.

The development is a shallow embedding of the C sources:

* The regex engine (simple_regex.c) is embedded as pure functions on
  `List Char`.  C strings are NUL-terminated byte arrays; we model them as
  the list of their characters before the terminator.  The scan loops of
  `simple_regex_match` use `size_t` arithmetic, which we model as `Nat`
  with explicit reduction modulo 2 ^ 64 exactly where the C code can wrap
  (`i += match_len - 1` with `match_len == 0`).  Loops whose termination
  is not structurally evident in C are given an explicit fuel parameter;
  exhausted fuel is reported as `none` (the C code loops forever there).
* The tagged value model is embedded twice, at the two levels of
  abstraction the claims need: a tree level (`Value`) for purely
  structural operations (clone result shape, truthiness, object
  property maps), and a heap level (`Heap`/`HVal`) in which every
  `SmashValue*` is an address, for the claims about aliasing, ownership
  and promise settlement.
* `double` payloads are modelled by their integer values (`Int`): no claim
  under consideration depends on floating-point rounding, only on
  comparison with zero.
-/

namespace SmashSpec

/-! ## C character classification (ASCII, "C" locale), from ctype.h

simple_regex.c calls tolower/toupper/isdigit/isalnum/isspace on `char`
values; the inputs of interest are ASCII. -/

def c_tolower (c : Char) : Char :=
  if 'A' ≤ c ∧ c ≤ 'Z' then Char.ofNat (c.toNat + 32) else c

def c_toupper (c : Char) : Char :=
  if 'a' ≤ c ∧ c ≤ 'z' then Char.ofNat (c.toNat - 32) else c

def c_isdigit (c : Char) : Bool := '0' ≤ c ∧ c ≤ '9'

def c_isalpha (c : Char) : Bool := ('a' ≤ c ∧ c ≤ 'z') ∨ ('A' ≤ c ∧ c ≤ 'Z')

def c_isalnum (c : Char) : Bool := c_isalpha c || c_isdigit c

def c_isspace (c : Char) : Bool :=
  c = ' ' ∨ c = '\t' ∨ c = '\n' ∨ c = '\x0b' ∨ c = '\x0c' ∨ c = '\r'

/-! ## simple_regex.c : the embedded regex engine -/

/-- simple_regex.c `SimpleRegex`: raw pattern text, raw flags text and the
two booleans derived from the flags. -/
structure SimpleRegex where
  pattern : List Char
  flags : List Char
  case_insensitive : Bool
  global : Bool
deriving DecidableEq, Repr

/-- simple_regex.c `simple_regex_create`: stores copies of pattern and
flags and scans the flags for 'i' and 'g' (other flags are ignored). -/
def simple_regex_create (pattern flags : List Char) : SimpleRegex :=
  { pattern := pattern, flags := flags,
    case_insensitive := flags.contains 'i',
    global := flags.contains 'g' }

/-- simple_regex.c `char_matches`. -/
def char_matches (c pattern : Char) (case_insensitive : Bool) : Bool :=
  if case_insensitive then c_tolower c = c_tolower pattern else c = pattern

/-- simple_regex.c `is_word_char`: alphanumeric or underscore. -/
def is_word_char (c : Char) : Bool := c_isalnum c || c = '_'

/-- The range test of the `a-z` branch inside a character class
(simple_regex.c lines 93-104): plain range containment, or, when the
case-insensitive flag is set, containment of the lowered (or raised)
character in the lowered (resp. raised) range. -/
def rangeMatch (c start stop : Char) (ci : Bool) : Bool :=
  (start ≤ c ∧ c ≤ stop) ∨
    (ci ∧ ((c_tolower start ≤ c_tolower c ∧ c_tolower c ≤ c_tolower stop) ∨
           (c_toupper start ≤ c_toupper c ∧ c_toupper c ≤ c_toupper stop)))

/-- The scanning loop of a character class body (simple_regex.c lines
91-113): walks the class until ']' or the end, testing ranges
(`p0 != '\\' && p1 == '-' && p2 && p2 != ']'`) and single characters. -/
def classMember (ci : Bool) (c : Char) : List Char → Bool
  | [] => false
  | p :: q :: r :: rest =>
    if p = ']' then false
    else if p ≠ '\\' ∧ q = '-' ∧ r ≠ ']' then
      if rangeMatch c p r ci then true else classMember ci c rest
    else if char_matches c p ci then true else classMember ci c (q :: r :: rest)
  | p :: ps =>
    if p = ']' then false
    else if char_matches c p ci then true else classMember ci c ps

/-- The skip-to-the-end-of-the-class loop (simple_regex.c lines 116-117):
drop everything up to and including the first ']'.  (The range branch of
the class scan never steps over a ']', so skipping from the class body
start is equivalent to skipping from wherever the scan stopped.) -/
def skipClass : List Char → List Char
  | [] => []
  | c :: cs => if c = ']' then cs else skipClass cs

/-- simple_regex.c `match_pattern_with_len` (lines 72-171).  The
`match_len` out-parameter of the C function is never written, so the
function is its boolean result.  `prev` is the character preceding the
current text position, used only by the zero-width `\b` assertion (the C
code reads `str[-1]`; at the very start of the text buffer that read is
out of bounds, which we model as `none`).  The `str++; pattern++;` at
the bottom of the C while loop runs after every branch, including the
character-class branch, which has already advanced `pattern` past the
closing ']' — so the pattern character immediately following a class is
skipped without being compared (this is how a trailing '+' after a class
is stepped over, making a pattern such as "[0-9]+" match one digit).
When that skipped position is already the end of the pattern (a pattern
ending in a class, e.g. the reduced pattern "[0-9]" of the plus
handling, or an unterminated class) the C `pattern++` walks past the
terminating NUL and the next read of `*pattern` is out of bounds
(undefined behaviour); we model such reads as the terminator, i.e. the
pattern simply ends, which is the behaviour on a zero byte after the
terminator.  The loop consumes at least one pattern character per
iteration, so fuel `pattern.length + 1` never runs out; exhausted fuel
conservatively answers `false`. -/
def matchAux : Nat → Option Char → List Char → List Char → Bool → Bool
  | 0, _, _, _, _ => false
  | _ + 1, _, [], pat, _ => pat.isEmpty
  | _ + 1, _, _ :: _, [], _ => true
  | fuel + 1, prev, c :: srest, p :: prest, ci =>
    if p = '[' then
      let negate := prest.head? = some '^'
      let body := if negate then prest.tail else prest
      if body.head? = some ']' then false
      else
        let matched0 := classMember ci c body
        let matched := if negate then !matched0 else matched0
        if matched then matchAux fuel (some c) srest ((skipClass body).drop 1) ci else false
    else if p = '\\' then
      match prest with
      | [] => false
      | e :: erest =>
        if e = 'd' then
          if c_isdigit c then matchAux fuel (some c) srest erest ci else false
        else if e = 'w' then
          if is_word_char c then matchAux fuel (some c) srest erest ci else false
        else if e = 's' then
          if c_isspace c then matchAux fuel (some c) srest erest ci else false
        else if e = 'b' then
          let prevIsWord := match prev with
            | some pc => is_word_char pc
            | none => false
          if prevIsWord = is_word_char c then false
          else matchAux fuel prev (c :: srest) erest ci
        else
          if char_matches c e ci then matchAux fuel (some c) srest erest ci else false
    else if p = '.' then matchAux fuel (some c) srest prest ci
    else if char_matches c p ci then matchAux fuel (some c) srest prest ci else false

/-- simple_regex.c `match_pattern`, applied at start offset `i` of
`text` (the C call sites pass `str + i`). -/
def match_pattern (text : List Char) (i : Nat) (pat : List Char) (ci : Bool) : Bool :=
  matchAux (pat.length + 1) (if i = 0 then none else text.get? (i - 1)) (text.drop i) pat ci

/-- The `j` loop of the `+`-quantifier handling for character classes
(simple_regex.c lines 207-215): count how many consecutive text positions
starting at `pos` match the reduced pattern, bounded by the end of the
text (`i + j < str_len`).  The second argument is the remaining budget
`text.length - pos`. -/
def classRunAux (base text : List Char) (ci : Bool) : Nat → Nat → Nat
  | _, 0 => 0
  | pos, b + 1 =>
    if match_pattern text pos base ci then classRunAux base text ci (pos + 1) b + 1 else 0

/-- The match-length computation of `simple_regex_match` at a matching
offset `i` (simple_regex.c lines 189-234): a trailing `+` strips the
quantifier and, for a character class, counts the run, otherwise uses the
reduced pattern length; without `+`, a class counts one character and any
other pattern counts its own length capped at the end of the text. -/
def matchLenAt (r : SimpleRegex) (text : List Char) (i : Nat) : Nat :=
  if 0 < r.pattern.length ∧ r.pattern.getLast? = some '+' then
    if (r.pattern.take (r.pattern.length - 1)).head? = some '[' then
      classRunAux (r.pattern.take (r.pattern.length - 1)) text r.case_insensitive i
        (text.length - i)
    else r.pattern.length - 1
  else if r.pattern.head? = some '[' then 1
  else min r.pattern.length (text.length - i)

/-- The modulus of `size_t` arithmetic. -/
def SIZE_T_MOD : Nat := 2 ^ 64

/-- The scan index after a recorded match in global mode: the C code does
`i += match_len - 1` in `size_t` arithmetic followed by the `for` loop's
`i++`.  For `match_len = 0` the subtraction wraps and the combined effect
leaves `i` unchanged. -/
def nextScanIndex (i ml : Nat) : Nat :=
  ((i + ml + (SIZE_T_MOD - 1)) % SIZE_T_MOD + 1) % SIZE_T_MOD

/-- The scan loop of simple_regex.c `simple_regex_match` (lines 187-263).
`acc` is the result buffer built so far; a ',' separator is appended
only when the buffer is nonempty, then the matched span of the text.
In global mode the scan resumes at `nextScanIndex`; otherwise the loop
breaks after the first match.  The loop does not always terminate (a
zero-length match leaves `i` unchanged), hence the fuel; `none` models
the C code never returning. -/
def scanLoop (r : SimpleRegex) (text : List Char) : Nat → Nat → List Char → Option (List Char)
  | 0, _, _ => none
  | fuel + 1, i, acc =>
    if i < text.length then
      if match_pattern text i r.pattern r.case_insensitive then
        let ml := matchLenAt r text i
        let acc1 := if 0 < acc.length then acc ++ [','] else acc
        let acc2 := acc1 ++ (text.drop i).take ml
        if r.global then scanLoop r text fuel (nextScanIndex i ml) acc2
        else some acc2
      else scanLoop r text fuel (i + 1) acc
    else some acc

/-- simple_regex.c `simple_regex_match` (fuelled): scans the text from
offset 0 with an initially empty result buffer.  runtime.c
`smash_regex_match` is a direct delegation to this function. -/
def simple_regex_match (fuel : Nat) (r : SimpleRegex) (text : List Char) : Option (List Char) :=
  scanLoop r text fuel 0 []

/-- simple_regex.c `simple_regex_test` (lines 401-414): true iff some
start offset strictly below the text length matches the pattern. -/
def simple_regex_test (r : SimpleRegex) (text : List Char) : Bool :=
  (List.range text.length).any fun i => match_pattern text i r.pattern r.case_insensitive

/-- runtime.c `smash_regex_match` (lines 683-686): a direct delegation
to `simple_regex_match`. -/
def smash_regex_match (fuel : Nat) (r : SimpleRegex) (text : List Char) :
    Option (List Char) :=
  simple_regex_match fuel r text

/-! ## Lemmas about the regex scan loop -/

lemma classRunAux_le (base text : List Char) (ci : Bool) :
    ∀ b pos, classRunAux base text ci pos b ≤ b := by
  intro b
  induction b with
  | zero => intro pos; simp [classRunAux]
  | succ n ih =>
    intro pos
    simp only [classRunAux]
    split
    · exact Nat.succ_le_succ (ih (pos + 1))
    · exact Nat.zero_le _

lemma matchLenAt_add_le (r : SimpleRegex) (text : List Char) (i : Nat)
    (hi : i < text.length) :
    i + matchLenAt r text i ≤ text.length + r.pattern.length := by
  unfold matchLenAt
  split
  · split
    · have := classRunAux_le (r.pattern.take (r.pattern.length - 1)) text
        r.case_insensitive (text.length - i) i
      omega
    · omega
  · split
    · omega
    · have : min r.pattern.length (text.length - i) ≤ text.length - i := Nat.min_le_right _ _
      omega

lemma nextScanIndex_eq (i ml : Nat) (h1 : 1 ≤ ml) (h2 : i + ml < SIZE_T_MOD) :
    nextScanIndex i ml = i + ml := by
  have hM : 1 ≤ SIZE_T_MOD := by norm_num [SIZE_T_MOD]
  unfold nextScanIndex
  have e1 : i + ml + (SIZE_T_MOD - 1) = (i + ml - 1) + SIZE_T_MOD := by omega
  rw [e1, Nat.add_mod_right]
  have l1 : i + ml - 1 < SIZE_T_MOD := by omega
  rw [Nat.mod_eq_of_lt l1]
  have e2 : i + ml - 1 + 1 = i + ml := by omega
  rw [e2, Nat.mod_eq_of_lt h2]

lemma scanLoop_terminates (r : SimpleRegex) (text : List Char)
    (H : ∀ i, i < text.length →
      match_pattern text i r.pattern r.case_insensitive = true →
      1 ≤ matchLenAt r text i)
    (Hb : text.length + r.pattern.length < SIZE_T_MOD) :
    ∀ fuel i acc, text.length - i < fuel →
      ∃ out, scanLoop r text fuel i acc = some out := by
  intro fuel
  induction fuel with
  | zero => intro i acc h; omega
  | succ n ih =>
    intro i acc h
    by_cases hi : i < text.length
    · by_cases hm : match_pattern text i r.pattern r.case_insensitive = true
      · by_cases hg : r.global = true
        · have hml := H i hi hm
          have hb2 : i + matchLenAt r text i < SIZE_T_MOD :=
            lt_of_le_of_lt (matchLenAt_add_le r text i hi) Hb
          have step : scanLoop r text (n + 1) i acc =
              scanLoop r text n (i + matchLenAt r text i)
                ((if 0 < acc.length then acc ++ [','] else acc) ++
                  (text.drop i).take (matchLenAt r text i)) := by
            rw [scanLoop]
            simp [hi, hm, hg, nextScanIndex_eq _ _ hml hb2]
          rw [step]
          exact ih _ _ (by omega)
        · refine ⟨(if 0 < acc.length then acc ++ [','] else acc) ++
            (text.drop i).take (matchLenAt r text i), ?_⟩
          rw [scanLoop]
          simp [hi, hm, hg]
      · have step : scanLoop r text (n + 1) i acc = scanLoop r text n (i + 1) acc := by
          rw [scanLoop]
          simp [hi, hm]
        rw [step]
        exact ih _ _ (by omega)
    · exact ⟨acc, by rw [scanLoop]; simp [hi]⟩

lemma scanLoop_plus_diverges :
    ∀ fuel, scanLoop (simple_regex_create "+".data "g".data) "+".data fuel 0 [] = none := by
  intro fuel
  induction fuel with
  | zero => rfl
  | succ n ih => exact ih

/-! ## Claim theorems: regex engine -/

/-- Claim C10 (confirmed): `simple_regex_test` on the empty text returns
false for every compiled regex, including one compiled from the empty
pattern: the scan loop ranges over start offsets strictly below the text
length, and the empty text has none. -/
theorem regex_test_empty_text (r : SimpleRegex) : simple_regex_test r [] = false := rfl

/-- Claim C5, counterexample: matching the pattern "SmashLang" (no flags)
against the text "Hello, SmashLang!" returns the raw string SmashLang,
not the bracketed quoted list claimed by the specification: the result
buffer of `simple_regex_match` receives only the matched spans and comma
separators, never a bracket or a quote. -/
theorem regex_match_format_cx :
    simple_regex_match 32 (simple_regex_create "SmashLang".data []) "Hello, SmashLang!".data
      = some "SmashLang".data ∧
    (some "SmashLang".data : Option (List Char)) ≠ some "[\"SmashLang\"]".data := by
  exact ⟨rfl, by decide⟩

/-- Claim C5, amended: `simple_regex_match` returns the found matches
joined by commas with no surrounding brackets and no quoting; matching
"SmashLang" against "Hello, SmashLang!" returns SmashLang, and a global
two-match scan is plain comma-joined (abc,abc).  The specification's
companion example is right up to the same formatting difference:
"[0-9]+" matches "abc123" at offset 3 (the class consumes one digit and
the loop-bottom pattern increment steps over the '+') and the
plus-handling run collapses the digits, so the result is 123 rather
than the claimed bracketed quoted list.  (The digit-run count applies
`match_pattern` to the reduced pattern "[0-9]", whose final pattern
increment walks past the NUL in C; the model reads the out-of-bounds
byte as the terminator.) -/
theorem regex_match_comma_joined :
    smash_regex_match 32 (simple_regex_create "SmashLang".data []) "Hello, SmashLang!".data
      = some "SmashLang".data ∧
    simple_regex_match 32 (simple_regex_create "abc".data "g".data) "abcxabc".data
      = some "abc,abc".data ∧
    simple_regex_match 32 (simple_regex_create "[0-9]+".data []) "abc123".data
      = some "123".data := by
  exact ⟨rfl, rfl, rfl⟩

/-- Claim C6, counterexample: with the global flag, pattern "+" matches
the text "+" at offset 0, the computed match length is 0 (the pattern
minus its trailing '+' is empty), and the scan position after the match
is again 0 — the scan position does not strictly increase, and the
wrapped `size_t` arithmetic `i += match_len - 1; i++` leaves the loop in
the same state forever (`simple_regex_match` exhausts any fuel). -/
theorem regex_global_zero_advance_cx :
    match_pattern "+".data 0 "+".data false = true ∧
    matchLenAt (simple_regex_create "+".data "g".data) "+".data 0 = 0 ∧
    nextScanIndex 0 0 = 0 ∧
    simple_regex_match 50 (simple_regex_create "+".data "g".data) "+".data = none := by
  refine ⟨rfl, rfl, by decide, scanLoop_plus_diverges 50⟩

/-- Claim C6, amended: the global scan advances by the recorded match
length (not by "at least one character"): whenever every recorded match
has length at least 1 the scan position strictly increases and the scan
terminates within text-length iterations, but a zero-length match (the
pattern "+" on a text containing '+', or the empty pattern on a nonempty
text) leaves the scan position unchanged and `simple_regex_match` never
returns. -/
theorem regex_global_scan_advance :
    (∀ (r : SimpleRegex) (text : List Char),
      (∀ i, i < text.length →
        match_pattern text i r.pattern r.case_insensitive = true →
        1 ≤ matchLenAt r text i) →
      text.length + r.pattern.length < SIZE_T_MOD →
      ∃ out, simple_regex_match (text.length + 1) r text = some out) ∧
    (∀ fuel, simple_regex_match fuel (simple_regex_create "+".data "g".data) "+".data = none) := by
  constructor
  · intro r text H Hb
    exact scanLoop_terminates r text H Hb (text.length + 1) 0 [] (by omega)
  · exact scanLoop_plus_diverges

/-- Witness for `regex_global_scan_advance`: the hypotheses hold for the
global pattern "a" on the text "banana", and the scan terminates. -/
theorem regex_global_scan_advance_witness :
    (∀ i, i < "banana".data.length →
      match_pattern "banana".data i (simple_regex_create "a".data "g".data).pattern
        (simple_regex_create "a".data "g".data).case_insensitive = true →
      1 ≤ matchLenAt (simple_regex_create "a".data "g".data) "banana".data i) ∧
    (∃ out, simple_regex_match ("banana".data.length + 1)
      (simple_regex_create "a".data "g".data) "banana".data = some out) := by
  refine ⟨by decide, regex_global_scan_advance.1 _ _ (by decide) (by decide)⟩

/-! ## runtime.c : the tagged value model, tree level

`SmashValue` is a tagged union (runtime.h lines 43-81).  At the tree
level a value is its observable content; `SmashValue*` addresses appear
only in the heap-level model further below.  A `double` payload is
modelled by its integer value, a `SmashFunction` pointer by an opaque
identifier, and a promise payload lives in the heap model, so the tree
constructor `promiseV` carries no argument. -/

inductive Value where
  | null
  | undefined
  | boolean (b : Bool)
  | number (n : Int)
  | string (s : String)
  | array (elems : List Value)
  | object (props : List (String × Value))
  | promiseV
  | functionV (fid : Nat)

/-- runtime.c `smash_value_clone` (lines 701-751), tree level.  Null,
Boolean, Number and String are copied.  For an Array the C code
allocates a fresh array via `smash_value_create_array(size)` (which sets
`size = 0`), writes the cloned elements into the capacity buffer but
never updates the new array's `size` field, so the observable clone of
any array is an empty array (the element clones are invisible to every
size-driven operation).  Object hits the explicit placeholder case
returning Null; Undefined, Promise and Function fall through to the
`default` case, also returning Null. -/
def smash_value_clone : Value → Value
  | .null => .null
  | .boolean b => .boolean b
  | .number n => .number n
  | .string s => .string s
  | .array _ => .array []
  | .object _ => .null
  | _ => .null

/-- runtime.c `smash_value_is_truthy` (lines 805-832).  The switch lists
Null, Boolean, Number, String, Array and Object; Undefined, Promise and
Function reach the `default:` branch which returns false.  (The string
and array payload pointers are never NULL for values built by the
constructors, so the non-null guards of the C code are vacuous.) -/
def smash_value_is_truthy : Value → Bool
  | .null => false
  | .boolean b => b
  | .number n => n != 0
  | .string s => s != ""
  | .array xs => !xs.isEmpty
  | .object _ => true
  | _ => false

/-- The property-replacement scan of runtime.c `smash_object_set` (lines
850-858): walk the property list; at the first key match replace the
stored value (the key string is kept) and report success; otherwise
report failure so the caller appends. -/
def setProps (k : String) (vc : Value) : List (String × Value) → List (String × Value) × Bool
  | [] => ([], false)
  | (k0, v0) :: rest =>
    if k0 = k then ((k0, vc) :: rest, true)
    else
      let r := setProps k vc rest
      ((k0, v0) :: r.1, r.2)

/-- runtime.c `smash_object_set` (lines 835-872): on a non-object the
call is a no-op; otherwise a clone of the value is made first, then the
first property with the same key is replaced, or the pair is appended. -/
def smash_object_set (o : Value) (k : String) (v : Value) : Value :=
  match o with
  | .object props =>
    if (setProps k (smash_value_clone v) props).2 then
      .object (setProps k (smash_value_clone v) props).1
    else .object (props ++ [(k, smash_value_clone v)])
  | _ => o

/-- The linear property lookup of runtime.c `smash_object_get`: first
pair whose key is `strcmp`-equal. -/
def getProp (k : String) : List (String × Value) → Option Value
  | [] => none
  | (k0, v0) :: rest => if k0 = k then some v0 else getProp k rest

/-- runtime.c `smash_object_get` (lines 773-791): Null for a non-object
or a missing key, otherwise a clone of the found property value. -/
def smash_object_get (o : Value) (k : String) : Value :=
  match o with
  | .object props =>
    match getProp k props with
    | some v => smash_value_clone v
    | none => .null
  | _ => .null

/-- runtime.c `smash_object_get_keys` (lines 875-898): an Array holding
a fresh String for every key, in insertion order (built with
`smash_value_create_string` and `smash_array_push`, which does update
the size); an empty Array for a non-object. -/
def smash_object_get_keys : Value → Value
  | .object props => .array (props.map fun pr => Value.string pr.1)
  | _ => .array []

/-- The values on which `smash_value_clone` is faithful: Null, Boolean,
Number, String, and the empty Array.  (Non-empty arrays lose their
elements, Objects and the remaining tags collapse to Null.) -/
def cloneFaithfulB : Value → Bool
  | .null => true
  | .boolean _ => true
  | .number _ => true
  | .string _ => true
  | .array xs => xs.isEmpty
  | _ => false

/-! ## Lemmas about the tree-level object operations -/

lemma clone_of_faithful (v : Value) (h : cloneFaithfulB v = true) :
    smash_value_clone v = v := by
  cases v <;> simp_all [cloneFaithfulB, smash_value_clone]

lemma cloneFaithfulB_clone (v : Value) (h : cloneFaithfulB v = true) :
    cloneFaithfulB (smash_value_clone v) = true := by
  rw [clone_of_faithful v h]; exact h

lemma setProps_length (k : String) (vc : Value) (l : List (String × Value)) :
    (setProps k vc l).1.length = l.length := by
  induction l with
  | nil => rfl
  | cons p rest ih =>
    obtain ⟨k0, v0⟩ := p
    simp only [setProps]
    split
    · rfl
    · simpa using ih

lemma setProps_found (k : String) (vc : Value) (l : List (String × Value)) :
    (setProps k vc l).2 = (getProp k l).isSome := by
  induction l with
  | nil => rfl
  | cons p rest ih =>
    obtain ⟨k0, v0⟩ := p
    simp only [setProps, getProp]
    split
    · rfl
    · simpa using ih

lemma getProp_setProps_self (k : String) (vc : Value) (l : List (String × Value))
    (h : (getProp k l).isSome = true) :
    getProp k (setProps k vc l).1 = some vc := by
  induction l with
  | nil => simp [getProp] at h
  | cons p rest ih =>
    obtain ⟨k0, v0⟩ := p
    simp only [setProps, getProp] at *
    split
    · simp_all [getProp]
    · simp_all [getProp]

lemma getProp_append_self (k : String) (vc : Value) (l : List (String × Value))
    (h : (getProp k l).isSome = false) :
    getProp k (l ++ [(k, vc)]) = some vc := by
  induction l with
  | nil => simp [getProp]
  | cons p rest ih =>
    obtain ⟨k0, v0⟩ := p
    simp only [getProp] at *
    split
    · simp_all
    · simp_all

/-! ## Claim theorems: truthiness and object operations -/

/-- Claim C7, counterexample: `smash_value_is_truthy` returns false for
Function and Promise values — they hit the `default:` branch of the
switch — whereas the claim asserts both are truthy. -/
theorem truthiness_function_promise_cx :
    smash_value_is_truthy (.functionV 0) = false ∧
    smash_value_is_truthy .promiseV = false := ⟨rfl, rfl⟩

/-- Claim C7, amended: the truthiness table with Function and Promise
falsy.  Null, Undefined, Boolean false, the Number 0, the empty String
and the empty Array are falsy; Boolean true, nonzero Numbers, non-empty
Strings and Arrays, and every Object are truthy; every Function and
Promise value is falsy (the switch has no case for them and the default
returns false). -/
theorem truthiness_table :
    smash_value_is_truthy .null = false ∧
    smash_value_is_truthy .undefined = false ∧
    (∀ b, smash_value_is_truthy (.boolean b) = b) ∧
    smash_value_is_truthy (.number 0) = false ∧
    (∀ n, n ≠ 0 → smash_value_is_truthy (.number n) = true) ∧
    smash_value_is_truthy (.string "") = false ∧
    (∀ s, s ≠ "" → smash_value_is_truthy (.string s) = true) ∧
    smash_value_is_truthy (.array []) = false ∧
    (∀ xs, xs ≠ [] → smash_value_is_truthy (.array xs) = true) ∧
    (∀ props, smash_value_is_truthy (.object props) = true) ∧
    (∀ fid, smash_value_is_truthy (.functionV fid) = false) ∧
    smash_value_is_truthy .promiseV = false := by
  refine ⟨rfl, rfl, fun b => rfl, rfl, ?_, rfl, ?_, rfl, ?_, fun props => rfl,
    fun fid => rfl, rfl⟩
  · intro n h
    simp [smash_value_is_truthy, h]
  · intro s h
    simp [smash_value_is_truthy, h]
  · intro xs h
    cases xs with
    | nil => exact absurd rfl h
    | cons x rest => rfl

/-- Witness for `truthiness_table`: its conditional rows instantiated at
the Number 3, the String "x" and a one-element Array. -/
theorem truthiness_table_witness :
    smash_value_is_truthy (.number 3) = true ∧
    smash_value_is_truthy (.string "x") = true ∧
    smash_value_is_truthy (.array [.null]) = true := by
  obtain ⟨-, -, -, -, hnum, -, hstr, -, harr, -⟩ := truthiness_table
  exact ⟨hnum 3 (by decide), hstr "x" (by simp), harr [.null] (by simp)⟩

/-- Claim C2, counterexample: `smash_value_clone` is not structurally
faithful: the clone of an (empty) Object is Null, and the clone of a
one-element Array is an empty Array (the C code never sets the cloned
array's size field). -/
theorem clone_object_null_cx :
    smash_value_clone (.object []) = .null ∧
    Value.null ≠ Value.object [] ∧
    smash_value_clone (.array [.number 1]) = .array [] ∧
    Value.array [] ≠ Value.array [.number 1] := by
  refine ⟨rfl, by simp, rfl, by simp⟩

/-- Claim C8, counterexample: after setting key "k" first to Null and
then to an (empty) Object, `smash_object_get` returns Null — not the
latest value — because `smash_object_set` stores a clone and the clone
of an Object is the Null placeholder. -/
theorem object_set_clone_degrades_cx :
    smash_object_get
        (smash_object_set (smash_object_set (.object []) "k" .null) "k" (.object []))
        "k" = .null ∧
    Value.null ≠ Value.object [] := by
  exact ⟨rfl, by simp⟩

/-- Claim C8, amended: setting the same key twice leaves the length of
`smash_object_get_keys` unchanged (the second set replaces in place),
and `smash_object_get` then returns a clone of the clone of the second
value — which equals that value exactly when it is clone-faithful
(Null, Boolean, Number, String or an empty Array); Objects, non-empty
Arrays, Promises and Functions are degraded by the clone stub. -/
theorem object_set_twice (props : List (String × Value)) (k : String) (v1 v2 : Value) :
    (∃ l1 l2,
      smash_object_get_keys (smash_object_set (.object props) k v1) = .array l1 ∧
      smash_object_get_keys
        (smash_object_set (smash_object_set (.object props) k v1) k v2) = .array l2 ∧
      l2.length = l1.length) ∧
    smash_object_get (smash_object_set (smash_object_set (.object props) k v1) k v2) k
      = smash_value_clone (smash_value_clone v2) ∧
    (cloneFaithfulB v2 = true →
      smash_object_get (smash_object_set (smash_object_set (.object props) k v1) k v2) k
        = v2) := by
  have main :
      ∀ props1 : List (String × Value), (getProp k props1).isSome = true →
        smash_object_set (.object props1) k v2
          = .object ((setProps k (smash_value_clone v2) props1).1) ∧
        smash_object_get (.object ((setProps k (smash_value_clone v2) props1).1)) k
          = smash_value_clone (smash_value_clone v2) := by
    intro props1 h1
    constructor
    · simp [smash_object_set, setProps_found, h1]
    · simp [smash_object_get, getProp_setProps_self k _ props1 h1]
  by_cases hf : (getProp k props).isSome = true
  · have e1 : smash_object_set (.object props) k v1
        = .object (setProps k (smash_value_clone v1) props).1 := by
      simp [smash_object_set, setProps_found, hf]
    have h1 : (getProp k ((setProps k (smash_value_clone v1) props).1)).isSome = true := by
      rw [getProp_setProps_self k _ props hf]; rfl
    obtain ⟨e2, e3⟩ := main _ h1
    refine ⟨⟨_, _, by rw [e1]; rfl, by rw [e1, e2]; rfl, ?_⟩, by rw [e1, e2]; exact e3, ?_⟩
    · simp [setProps_length]
    · intro hcf
      rw [e1, e2, e3, clone_of_faithful _ (cloneFaithfulB_clone _ hcf)]
      exact clone_of_faithful _ hcf
  · have hf' : (getProp k props).isSome = false := by simpa using hf
    have e1 : smash_object_set (.object props) k v1
        = .object (props ++ [(k, smash_value_clone v1)]) := by
      simp [smash_object_set, setProps_found, hf']
    have h1 : (getProp k (props ++ [(k, smash_value_clone v1)])).isSome = true := by
      rw [getProp_append_self k _ props hf']; rfl
    obtain ⟨e2, e3⟩ := main _ h1
    refine ⟨⟨_, _, by rw [e1]; rfl, by rw [e1, e2]; rfl, ?_⟩, by rw [e1, e2]; exact e3, ?_⟩
    · simp [setProps_length]
    · intro hcf
      rw [e1, e2, e3, clone_of_faithful _ (cloneFaithfulB_clone _ hcf)]
      exact clone_of_faithful _ hcf

/-- Witness for `object_set_twice`: the empty object, key "k", first
value Null, second value the Number 7 (clone-faithful). -/
theorem object_set_twice_witness :
    smash_object_get (smash_object_set (smash_object_set (.object []) "k" .null) "k"
      (.number 7)) "k" = .number 7 := by
  exact (object_set_twice [] "k" .null (.number 7)).2.2 rfl

/-! ## runtime.c : the heap-level model

For the claims about aliasing and ownership every `SmashValue*` is an
address into an explicit heap.  `malloc` is modelled by a monotone
allocator (`Heap.next` is the first never-used address); `free` removes
the cell.  A promise's continuation function pointers can only ever hold
`promise_chain_fulfill` or `promise_chain_reject` (the only values the
runtime ever installs, in `smash_promise_then`), so they are modelled by
the enumeration `Callback`; the `PromiseChainData` cells allocated by
`smash_promise_then` are heap cells of shape `hchain`.  Native
`SmashFunction` pointers are opaque identifiers interpreted by an
environment `FEnv`; every invocation of one is recorded in an event
trace, as is every invocation of a continuation callback. -/

abbrev Addr := Nat

inductive PStatus where
  | pending
  | fulfilled
  | rejected
deriving DecidableEq, Repr

inductive Callback where
  | chainFulfill
  | chainReject
deriving DecidableEq, Repr

/-- Heap cell contents: the payload of one `SmashValue` (plus `hchain`
for a `PromiseChainData` allocation).  Children are addresses. -/
inductive HVal where
  | hnull
  | hundef
  | hbool (b : Bool)
  | hnum (n : Int)
  | hstr (s : String)
  | harr (elems : List Addr)
  | hobj (props : List (String × Addr))
  | hpromise (st : PStatus) (result : Option Addr) (onF onR : Option Callback)
      (cbData : Option Addr)
  | hfun (fid : Nat)
  | hchain (nextP : Addr) (handler : Option Addr)
deriving DecidableEq, Repr

/-- The child addresses stored directly in a cell. -/
def hvalAddrs : HVal → List Addr
  | .harr l => l
  | .hobj props => props.map Prod.snd
  | .hpromise _ res _ _ cbd => res.toList ++ cbd.toList
  | .hchain nextP handler => nextP :: handler.toList
  | _ => []

structure Heap where
  mem : Nat → Option HVal
  next : Nat

def Heap.setMem (h : Heap) (a : Addr) (v : Option HVal) : Heap :=
  { mem := fun b => if b = a then v else h.mem b, next := h.next }

def Heap.update (h : Heap) (a : Addr) (hv : HVal) : Heap := h.setMem a (some hv)

def Heap.remove (h : Heap) (a : Addr) : Heap := h.setMem a none

def Heap.alloc (h : Heap) (hv : HVal) : Heap × Addr :=
  ({ mem := fun b => if b = h.next then some hv else h.mem b, next := h.next + 1 }, h.next)

/-- A concrete heap whose cells are the entries of a list (cell `i`
holds the `i`-th entry); every allocated address is below `next`. -/
def Heap.ofList (l : List HVal) : Heap :=
  { mem := fun a => l.get? a, next := l.length }

/-! ### Array operations (runtime.c lines 84-132)

`smash_array_push` stores the element pointer itself in the next slot
(`array->elements[array->size++] = element_value`); there is no clone.
The capacity-doubling reallocation moves the slot buffer but not the
elements, and the size-visible contents are unchanged by it, so the
abstract cell directly holds the list of the first `size` element
addresses.  `smash_array_get` returns the stored pointer itself for an
in-bounds index and a freshly allocated Null for a wrong-type receiver
or an out-of-range index. -/

def smash_array_push (h : Heap) (arr elem : Addr) : Heap :=
  match h.mem arr with
  | some (.harr l) => h.update arr (.harr (l ++ [elem]))
  | _ => h

def smash_array_get (h : Heap) (arr : Addr) (i : Int) : Heap × Addr :=
  match h.mem arr with
  | some (.harr l) =>
    if i < 0 ∨ (l.length : Int) ≤ i then h.alloc .hnull
    else (h, l.getD i.toNat 0)
  | _ => h.alloc .hnull

/-! ### Clone and free, heap level -/

/-- runtime.c `smash_value_clone` (lines 701-751), heap level.  A NULL
argument (unallocated address) yields a fresh Null.  Null, Boolean,
Number and String are copied into a fresh cell.  For an Array the C code
first allocates the new array value (`smash_value_create_array(size)`,
whose `size` field is 0 and stays 0 — the element clones are written
into the capacity buffer but the count is never updated), then clones
every element in order; the element clones are fresh allocations
unreachable from the result.  Object hits the placeholder case; all
remaining tags hit `default`; both return a fresh Null.  The fuel bounds
the recursion depth (the C code diverges on a cyclic value). -/
def smash_value_cloneH : Nat → Heap → Addr → Option (Heap × Addr)
  | 0, _, _ => none
  | fuel + 1, h, a =>
    match h.mem a with
    | none => some (h.alloc .hnull)
    | some .hnull => some (h.alloc .hnull)
    | some (.hbool b) => some (h.alloc (.hbool b))
    | some (.hnum n) => some (h.alloc (.hnum n))
    | some (.hstr s) => some (h.alloc (.hstr s))
    | some (.harr l) =>
      let p := h.alloc (.harr [])
      match l.foldlM (fun hh x => (smash_value_cloneH fuel hh x).map Prod.fst) p.1 with
      | some h2 => some (h2, p.2)
      | none => none
    | some (.hobj _) => some (h.alloc .hnull)
    | some _ => some (h.alloc .hnull)

/-- runtime.c `smash_value_free` (lines 52-80), heap level.  A NULL
pointer is ignored.  An Array recursively frees its (size-visible)
elements, then the cell is released.  Object freeing is a stub (the
properties are leaked) and Promise/Function have no switch case, so for
all remaining tags only the cell itself is released. -/
def smash_value_freeH : Nat → Heap → Addr → Option Heap
  | 0, _, _ => none
  | fuel + 1, h, a =>
    match h.mem a with
    | none => some h
    | some (.harr l) =>
      match l.foldlM (fun hh x => smash_value_freeH fuel hh x) h with
      | some h1 => some (h1.remove a)
      | none => none
    | some _ => some (h.remove a)

/-! ### The promise engine (runtime.c lines 900-1077) -/

/-- Trace events: invocation of a stored continuation callback
(`promise->on_fulfill` / `promise->on_reject`) with the settled payload,
and application of a native `SmashFunction` to its argument list. -/
inductive Event where
  | invoke (cb : Callback) (arg : Addr)
  | call (fid : Nat) (args : List Addr)
deriving DecidableEq, Repr

/-- Interpretation of native function identifiers: a native callback
receives the heap and its argument addresses and returns the updated
heap and its result address (the C signature is
`SmashValue* (*)(SmashValue* this, int argc, SmashValue** args)`; the
runtime always passes NULL for `this`). -/
abbrev FEnv := Nat → Heap → List Addr → Heap × Addr

/-- The mutually recursive entry points of the promise engine:
`smash_promise_resolve`, `smash_promise_reject`, and the continuation
bodies `promise_chain_fulfill`/`promise_chain_reject` (reached through
stored callbacks). -/
inductive PReq where
  | resolveR (p v : Addr)
  | rejectR (p v : Addr)
  | chainR (cb : Callback) (value : Addr) (cbd : Option Addr)

/-- The pass-through of a chain callback whose handler slot is empty or
not a Function: `promise_chain_fulfill` resolves the next promise with
the payload, `promise_chain_reject` rejects it (runtime.c lines 994-995
and 1019-1020). -/
def passReq : Callback → Addr → Addr → PReq
  | .chainFulfill, p, v => .resolveR p v
  | .chainReject, p, v => .rejectR p v

/-- One fuelled interpreter for the promise engine.

`resolveR`/`rejectR` embed `smash_promise_resolve`/`smash_promise_reject`
(runtime.c lines 930-969): a non-promise argument or an already settled
promise returns with the heap untouched and an empty trace; a pending
promise is settled with a clone of the payload, then the stored
continuation (if any) is invoked with the stored clone and the stored
`callback_data`.

`chainR` embeds `promise_chain_fulfill`/`promise_chain_reject`
(runtime.c lines 978-1025): with a chain-data cell present, a Function
handler is applied to the payload, the next promise is resolved with the
handler's result and the result is freed; without one the payload passes
through (resolve for the fulfil chain, reject for the reject chain);
finally the chain-data cell is freed. -/
def promRun (fenv : FEnv) : Nat → Heap → PReq → Option (Heap × List Event)
  | 0, _, _ => none
  | fuel + 1, h, .resolveR p v =>
    match h.mem p with
    | some (.hpromise .pending _res onF onR cbd) =>
      match smash_value_cloneH (fuel + 1) h v with
      | none => none
      | some (h1, r) =>
        let h2 := h1.update p (.hpromise .fulfilled (some r) onF onR cbd)
        match onF with
        | none => some (h2, [])
        | some cb =>
          match promRun fenv fuel h2 (.chainR cb r cbd) with
          | none => none
          | some (h3, evs) => some (h3, .invoke cb r :: evs)
    | some (.hpromise _ _ _ _ _) => some (h, [])
    | _ => some (h, [])
  | fuel + 1, h, .rejectR p v =>
    match h.mem p with
    | some (.hpromise .pending _res onF onR cbd) =>
      match smash_value_cloneH (fuel + 1) h v with
      | none => none
      | some (h1, r) =>
        let h2 := h1.update p (.hpromise .rejected (some r) onF onR cbd)
        match onR with
        | none => some (h2, [])
        | some cb =>
          match promRun fenv fuel h2 (.chainR cb r cbd) with
          | none => none
          | some (h3, evs) => some (h3, .invoke cb r :: evs)
    | some (.hpromise _ _ _ _ _) => some (h, [])
    | _ => some (h, [])
  | fuel + 1, h, .chainR cb value cbd =>
    match cbd with
    | none => some (h, [])
    | some d =>
      match h.mem d with
      | some (.hchain nextP handler) =>
        match handler with
        | some ha =>
          match h.mem ha with
          | some (.hfun fid) =>
            let fr := fenv fid h [value]
            match promRun fenv fuel fr.1 (.resolveR nextP fr.2) with
            | none => none
            | some (h2, evs) =>
              match smash_value_freeH (fuel + 1) h2 fr.2 with
              | none => none
              | some h3 => some (h3.remove d, .call fid [value] :: evs)
          | _ =>
            match promRun fenv fuel h (passReq cb nextP value) with
            | none => none
            | some (h2, evs) => some (h2.remove d, evs)
        | none =>
          match promRun fenv fuel h (passReq cb nextP value) with
          | none => none
          | some (h2, evs) => some (h2.remove d, evs)
      | _ => some (h, [])

/-- runtime.c `smash_promise_resolve`. -/
def smash_promise_resolve (fenv : FEnv) (fuel : Nat) (h : Heap) (p v : Addr) :
    Option (Heap × List Event) :=
  promRun fenv fuel h (.resolveR p v)

/-- runtime.c `smash_promise_reject`. -/
def smash_promise_reject (fenv : FEnv) (fuel : Nat) (h : Heap) (p v : Addr) :
    Option (Heap × List Event) :=
  promRun fenv fuel h (.rejectR p v)

/-- runtime.c `smash_promise_create` (lines 903-927): a fresh Pending
promise with no result, no callbacks and no callback data. -/
def smash_promise_create (h : Heap) : Heap × Addr :=
  h.alloc (.hpromise .pending none none none none)

/-- runtime.c `smash_promise_then` (lines 1028-1072).  A non-promise
receiver just returns a fresh promise.  Otherwise a new promise is
created; if the receiver is Pending, two `PromiseChainData` cells are
allocated (the second is never referenced again — it leaks), the
receiver's two callback slots are set to the chain callbacks, and its
single `callback_data` slot receives the FULFILL data (the C comment
reads: this is a simplification, we would need separate data for each).
If the receiver is already settled the matching handler (when it is a
Function) runs immediately with the stored result and the new promise is
resolved with its return value, else the stored result passes through
(resolve on the fulfilled side, reject on the rejected side).  A settled
promise's `result` is never NULL for heaps built by this runtime; the
`getD 0` below is the (unreachable) NULL-dereference default. -/
def smash_promise_then (fenv : FEnv) (fuel : Nat) (h : Heap) (p : Addr)
    (onF onR : Option Addr) : Option (Heap × Addr × List Event) :=
  match h.mem p with
  | some (.hpromise st res _pOnF _pOnR _pCbd) =>
    let q := smash_promise_create h
    match st with
    | .pending =>
      let fd := q.1.alloc (.hchain q.2 onF)
      let rd := fd.1.alloc (.hchain q.2 onR)
      some (rd.1.update p
        (.hpromise .pending res (some .chainFulfill) (some .chainReject) (some fd.2)),
        q.2, [])
    | .fulfilled =>
      match onF with
      | some fa =>
        match q.1.mem fa with
        | some (.hfun fid) =>
          let fr := fenv fid q.1 [res.getD 0]
          match promRun fenv fuel fr.1 (.resolveR q.2 fr.2) with
          | none => none
          | some (h2, evs) =>
            match smash_value_freeH fuel h2 fr.2 with
            | none => none
            | some h3 => some (h3, q.2, .call fid [res.getD 0] :: evs)
        | _ =>
          match promRun fenv fuel q.1 (.resolveR q.2 (res.getD 0)) with
          | none => none
          | some (h2, evs) => some (h2, q.2, evs)
      | none =>
        match promRun fenv fuel q.1 (.resolveR q.2 (res.getD 0)) with
        | none => none
        | some (h2, evs) => some (h2, q.2, evs)
    | .rejected =>
      match onR with
      | some ra =>
        match q.1.mem ra with
        | some (.hfun fid) =>
          let fr := fenv fid q.1 [res.getD 0]
          match promRun fenv fuel fr.1 (.resolveR q.2 fr.2) with
          | none => none
          | some (h2, evs) =>
            match smash_value_freeH fuel h2 fr.2 with
            | none => none
            | some h3 => some (h3, q.2, .call fid [res.getD 0] :: evs)
        | _ =>
          match promRun fenv fuel q.1 (.rejectR q.2 (res.getD 0)) with
          | none => none
          | some (h2, evs) => some (h2, q.2, evs)
      | none =>
        match promRun fenv fuel q.1 (.rejectR q.2 (res.getD 0)) with
        | none => none
        | some (h2, evs) => some (h2, q.2, evs)
  | _ =>
    let q := smash_promise_create h
    some (q.1, q.2, [])

/-! ## Lemmas about the heap-level model -/

lemma alloc_mem_lt (h : Heap) (hv : HVal) (b : Addr) (hb : b < h.next) :
    ((h.alloc hv).1).mem b = h.mem b := by
  simp [Heap.alloc, Nat.ne_of_lt hb]

lemma alloc_mem_self (h : Heap) (hv : HVal) : ((h.alloc hv).1).mem (h.alloc hv).2 = some hv := by
  simp [Heap.alloc]

lemma cloneFold_spec (fuel : Nat)
    (IH : ∀ h a out, smash_value_cloneH fuel h a = some out →
      (∀ b, b < h.next → out.1.mem b = h.mem b) ∧ h.next ≤ out.1.next) :
    ∀ (l : List Addr) (h0 h1 : Heap),
      l.foldlM (fun hh x => (smash_value_cloneH fuel hh x).map Prod.fst) h0 = some h1 →
      (∀ b, b < h0.next → h1.mem b = h0.mem b) ∧ h0.next ≤ h1.next := by
  intro l
  induction l with
  | nil =>
    intro h0 h1 hf
    simp only [List.foldlM_nil, pure, Option.some.injEq] at hf
    subst hf
    exact ⟨fun b _ => rfl, le_refl _⟩
  | cons x xs ih =>
    intro h0 h1 hf
    rw [List.foldlM_cons] at hf
    rcases hc : smash_value_cloneH fuel h0 x with _ | out
    · rw [hc] at hf; exact absurd hf (by simp [Option.map, Option.bind])
    · rw [hc] at hf
      simp only [Option.map_some, Option.bind_eq_bind, Option.some_bind] at hf
      obtain ⟨q1, q2⟩ := IH h0 x out hc
      obtain ⟨r1, r2⟩ := ih out.1 h1 hf
      refine ⟨fun b hb => ?_, le_trans q2 r2⟩
      rw [r1 b (lt_of_lt_of_le hb q2), q1 b hb]

lemma cloneH_spec : ∀ (fuel : Nat) (h : Heap) (a : Addr) (out : Heap × Addr),
    smash_value_cloneH fuel h a = some out →
    (∀ b, b < h.next → out.1.mem b = h.mem b) ∧
    h.next ≤ out.2 ∧ out.2 < out.1.next ∧ h.next ≤ out.1.next ∧
    ∃ hv, out.1.mem out.2 = some hv ∧ hvalAddrs hv = [] := by
  intro fuel
  induction fuel with
  | zero =>
    intro h a out hc
    exact absurd hc (by simp [smash_value_cloneH])
  | succ n ih =>
    intro h a out hc
    have IH' : ∀ h a out, smash_value_cloneH n h a = some out →
        (∀ b, b < h.next → out.1.mem b = h.mem b) ∧ h.next ≤ out.1.next := by
      intro h a out hx
      obtain ⟨p1, _, _, p4, _⟩ := ih h a out hx
      exact ⟨p1, p4⟩
    have halloc : ∀ hv : HVal, hvalAddrs hv = [] → out = h.alloc hv →
        (∀ b, b < h.next → out.1.mem b = h.mem b) ∧
        h.next ≤ out.2 ∧ out.2 < out.1.next ∧ h.next ≤ out.1.next ∧
        ∃ hv', out.1.mem out.2 = some hv' ∧ hvalAddrs hv' = [] := by
      intro hv hleaf hout
      subst hout
      exact ⟨fun b hb => alloc_mem_lt h hv b hb, le_refl _, by simp [Heap.alloc],
        by simp [Heap.alloc], hv, alloc_mem_self h hv, hleaf⟩
    rw [smash_value_cloneH] at hc
    rcases hm : h.mem a with _ | hval
    · rw [hm] at hc
      exact halloc .hnull rfl (by injection hc with e; exact e.symm)
    · rw [hm] at hc
      cases hval with
      | hnull => exact halloc .hnull rfl (by injection hc with e; exact e.symm)
      | hundef => exact halloc .hnull rfl (by injection hc with e; exact e.symm)
      | hbool b => exact halloc (.hbool b) rfl (by injection hc with e; exact e.symm)
      | hnum n => exact halloc (.hnum n) rfl (by injection hc with e; exact e.symm)
      | hstr s => exact halloc (.hstr s) rfl (by injection hc with e; exact e.symm)
      | hobj props => exact halloc .hnull rfl (by injection hc with e; exact e.symm)
      | hpromise st res onF onR cbd =>
        exact halloc .hnull rfl (by injection hc with e; exact e.symm)
      | hfun fid => exact halloc .hnull rfl (by injection hc with e; exact e.symm)
      | hchain nextP handler => exact halloc .hnull rfl (by injection hc with e; exact e.symm)
      | harr l =>
        simp only [] at hc
        rcases hf : l.foldlM
            (fun hh x => (smash_value_cloneH n hh x).map Prod.fst) (h.alloc (.harr [])).1
          with _ | h2
        · rw [hf] at hc; exact absurd hc (by simp)
        · rw [hf] at hc
          injection hc with e
          obtain ⟨f1, f2⟩ := cloneFold_spec n IH' l _ h2 hf
          have hnext1 : (h.alloc (.harr [])).1.next = h.next + 1 := rfl
          subst e
          have f1' : ∀ b, b < h.next + 1 → h2.mem b = (h.alloc (.harr [])).1.mem b :=
            fun b hb => f1 b (by rw [hnext1]; exact hb)
          have f2' : h.next + 1 ≤ h2.next := le_of_eq_of_le hnext1.symm f2
          have halloc2 : (h.alloc (HVal.harr [])).2 = h.next := rfl
          dsimp only
          rw [halloc2]
          refine ⟨fun b hb => ?_, le_refl _, ?three, ?four, .harr [], ?_, rfl⟩
          case three => exact Nat.lt_of_lt_of_le (Nat.lt_succ_self _) f2'
          case four => exact Nat.le_of_lt (Nat.lt_of_lt_of_le (Nat.lt_succ_self _) f2')
          · rw [f1' b (by omega), alloc_mem_lt h _ b hb]
          · rw [f1' h.next (by omega)]
            exact alloc_mem_self h _

/-! ## Claim theorems: containers and promises (heap level) -/

/-- A function environment whose every native function allocates and
returns a fresh Null (used to instantiate theorems that hold for every
environment). -/
def fenvNull : FEnv := fun _ h _ => h.alloc .hnull

/-- Claim C1, counterexample: a heap with an empty array at cell 0 and
the caller's Number 5 at cell 1.  `smash_array_push` stores the caller's
address itself (no clone): the array cell then holds exactly address 1,
`smash_array_get` returns that very address, and after the caller
overwrites their value (cell 1 becomes the Number 7) reading the element
back through the array observes the mutation — the container aliases the
caller's Value. -/
theorem array_push_aliasing_cx :
    (smash_array_push (Heap.ofList [.harr [], .hnum 5]) 0 1).mem 0 = some (.harr [1]) ∧
    (smash_array_get (smash_array_push (Heap.ofList [.harr [], .hnum 5]) 0 1) 0 0).2 = 1 ∧
    ((smash_array_push (Heap.ofList [.harr [], .hnum 5]) 0 1).update 1 (.hnum 7)).mem
        ((smash_array_get ((smash_array_push (Heap.ofList [.harr [], .hnum 5]) 0 1).update 1
          (.hnum 7)) 0 0).2)
      = some (.hnum 7) := ⟨rfl, rfl, rfl⟩

/-- Claim C1, amended: `smash_array_push` appends the caller's pointer
itself to the array (ownership transfer, no clone), leaving every other
cell untouched, and `smash_array_get` with an in-bounds index returns
the stored element address itself with the heap unchanged — so the
container aliases the pushed Value, and mutating or freeing the caller's
Value is visible through the array (and vice versa). -/
theorem array_push_get_alias (h : Heap) (arr elem : Addr) (l : List Addr)
    (hmem : h.mem arr = some (.harr l)) :
    (smash_array_push h arr elem).mem arr = some (.harr (l ++ [elem])) ∧
    smash_array_get (smash_array_push h arr elem) arr (l.length : Int)
      = (smash_array_push h arr elem, elem) ∧
    (∀ b, b ≠ arr → (smash_array_push h arr elem).mem b = h.mem b) := by
  have hp : smash_array_push h arr elem = h.update arr (.harr (l ++ [elem])) := by
    rw [smash_array_push, hmem]
  have hm2 : (smash_array_push h arr elem).mem arr = some (.harr (l ++ [elem])) := by
    rw [hp]; simp [Heap.update, Heap.setMem]
  refine ⟨hm2, ?_, ?_⟩
  · rw [smash_array_get, hm2]
    have hnotlt : ¬((l.length : Int) < 0 ∨ ((l ++ [elem]).length : Int) ≤ (l.length : Int)) := by
      simp
    dsimp only
    rw [if_neg hnotlt]
    have : (l ++ [elem]).getD ((l.length : Int)).toNat 0 = elem := by
      simp [List.getD_eq_getElem?_getD, List.getElem?_concat_length, Int.toNat_natCast]
    rw [this]
  · intro b hb
    rw [hp]
    simp [Heap.update, Heap.setMem, hb]

/-- Witness for `array_push_get_alias`: the concrete two-cell heap of
the counterexample. -/
theorem array_push_get_alias_witness :
    (smash_array_push (Heap.ofList [.harr [], .hnum 5]) 0 1).mem 0 = some (.harr [1]) ∧
    smash_array_get (smash_array_push (Heap.ofList [.harr [], .hnum 5]) 0 1) 0 0
      = (smash_array_push (Heap.ofList [.harr [], .hnum 5]) 0 1, 1) := by
  obtain ⟨w1, w2, -⟩ := array_push_get_alias (Heap.ofList [.harr [], .hnum 5]) 0 1 [] rfl
  exact ⟨w1, w2⟩

/-- Claim C2, amended: `smash_value_clone` produces a freshly allocated
value sharing no heap cell with its argument.  Structurally it is the
identity exactly on Null, Boolean, Number, String and the empty Array;
an Object (and Undefined/Promise/Function) becomes a Null placeholder
and a non-empty Array becomes an Array of length 0 (the clone's size
field is never set).  At the heap level the clone leaves every
pre-existing cell untouched, its root cell is fresh and self-contained,
so mutating or freeing any pre-existing cell (in particular any cell of
the original value) never changes the clone, and vice versa. -/
theorem clone_amended :
    (∀ v, cloneFaithfulB v = true → smash_value_clone v = v) ∧
    (∀ ps, smash_value_clone (.object ps) = .null) ∧
    (∀ xs, smash_value_clone (.array xs) = .array []) ∧
    (∀ fuel h a out, smash_value_cloneH fuel h a = some out →
      (∀ b, b < h.next → out.1.mem b = h.mem b) ∧
      h.next ≤ out.2 ∧
      (∃ hv, out.1.mem out.2 = some hv ∧ hvalAddrs hv = []) ∧
      (∀ b x, b < h.next → (out.1.setMem b x).mem out.2 = out.1.mem out.2) ∧
      (∀ b x, b < h.next → ((out.1.setMem out.2 x).mem b = out.1.mem b))) := by
  refine ⟨clone_of_faithful, fun ps => rfl, fun xs => rfl, ?_⟩
  intro fuel h a out hc
  obtain ⟨p1, p2, p3, p4, p5⟩ := cloneH_spec fuel h a out hc
  refine ⟨p1, p2, p5, ?_, ?_⟩
  · intro b x hb
    have hne : out.2 ≠ b := fun e => absurd (e ▸ p2) (by omega)
    simp [Heap.setMem, hne]
  · intro b x hb
    have hne : b ≠ out.2 := fun e => absurd (e ▸ p2) (by omega)
    simp [Heap.setMem, hne]

/-- Witness for `clone_amended`: the faithful row at the Number 3, and
the heap part run on a concrete two-cell heap (array at 0 holding the
Number at 1): the clone of cell 1 is the fresh self-contained cell 2 and
overwriting the caller's cell 1 leaves it untouched. -/
theorem clone_amended_witness :
    smash_value_clone (.number 3) = .number 3 ∧
    (∃ out, smash_value_cloneH 4 (Heap.ofList [.harr [1], .hnum 5]) 1 = some out ∧
      2 ≤ out.2 ∧ (∀ x, (out.1.setMem 1 x).mem out.2 = out.1.mem out.2)) := by
  refine ⟨clone_amended.1 _ rfl, ?_⟩
  obtain ⟨out, hout⟩ : ∃ out, smash_value_cloneH 4 (Heap.ofList [.harr [1], .hnum 5]) 1
      = some out := ⟨_, rfl⟩
  obtain ⟨-, p2, -, p4, -⟩ := clone_amended.2.2.2 4 _ 1 out hout
  exact ⟨out, hout, p2, fun x => p4 1 x (by decide)⟩

/-- Claim C3 (confirmed): resolving or rejecting an already settled
promise is a complete no-op — the early return on
`promise->status != PROMISE_PENDING` leaves the heap (hence the
promise's status and stored result) unchanged and invokes no
continuation callback and no native function (empty event trace). -/
theorem promise_settled_noop (fenv : FEnv) (fuel : Nat) (h : Heap) (p v : Addr)
    (st : PStatus) (res : Option Addr) (onF onR : Option Callback) (cbd : Option Addr)
    (hmem : h.mem p = some (.hpromise st res onF onR cbd)) (hst : st ≠ .pending) :
    smash_promise_resolve fenv (fuel + 1) h p v = some (h, []) ∧
    smash_promise_reject fenv (fuel + 1) h p v = some (h, []) := by
  cases st with
  | pending => exact absurd rfl hst
  | fulfilled =>
    constructor <;> simp [smash_promise_resolve, smash_promise_reject, promRun, hmem]
  | rejected =>
    constructor <;> simp [smash_promise_resolve, smash_promise_reject, promRun, hmem]

/-- Witness for `promise_settled_noop`: a concrete heap holding a
promise already Fulfilled with result cell 1; resolving it again with
the distinct value at cell 2 (and rejecting it) changes nothing and
invokes nothing. -/
theorem promise_settled_noop_witness :
    smash_promise_resolve fenvNull 5 (Heap.ofList
      [.hpromise .fulfilled (some 1) none none none, .hnum 5, .hnum 6]) 0 2
      = some (Heap.ofList [.hpromise .fulfilled (some 1) none none none, .hnum 5, .hnum 6],
          []) ∧
    smash_promise_reject fenvNull 5 (Heap.ofList
      [.hpromise .fulfilled (some 1) none none none, .hnum 5, .hnum 6]) 0 2
      = some (Heap.ofList [.hpromise .fulfilled (some 1) none none none, .hnum 5, .hnum 6],
          []) := by
  exact promise_settled_noop fenvNull 4
    (Heap.ofList [.hpromise .fulfilled (some 1) none none none, .hnum 5, .hnum 6]) 0 2
    .fulfilled (some 1) none none none rfl (by decide)

/-- Claim C9 (confirmed): `smash_promise_resolve` on a Pending promise
(with no continuation installed yet — settlement before any `then`)
stores `smash_value_clone(value)` as the promise's result: the stored
result cell is freshly allocated, self-contained, and disjoint from
every pre-existing cell, so mutating or freeing the caller's Value after
the call never changes the result the promise holds (the same cell later
handed to a continuation).  Every pre-existing cell other than the
promise's own is untouched.  `smash_promise_reject` is the same code
path with `PROMISE_REJECTED`, proved alongside. -/
theorem promise_resolve_clone_ownership (fenv : FEnv) (fuel : Nat) (h : Heap) (p v : Addr)
    (res : Option Addr) (cbd : Option Addr)
    (hp : p < h.next)
    (hmem : h.mem p = some (.hpromise .pending res none none cbd)) :
    ∀ h1 r, smash_value_cloneH (fuel + 1) h v = some (h1, r) →
    (∃ h', smash_promise_resolve fenv (fuel + 1) h p v = some (h', []) ∧
      h'.mem p = some (.hpromise .fulfilled (some r) none none cbd) ∧
      h.next ≤ r ∧
      (∃ hv, h'.mem r = some hv ∧ hvalAddrs hv = []) ∧
      (∀ b, b < h.next → b ≠ p → h'.mem b = h.mem b) ∧
      (∀ b x, b < h.next → (h'.setMem b x).mem r = h'.mem r)) ∧
    (∃ h2, smash_promise_reject fenv (fuel + 1) h p v = some (h2, []) ∧
      h2.mem p = some (.hpromise .rejected (some r) none none cbd) ∧
      (∃ hv, h2.mem r = some hv ∧ hvalAddrs hv = []) ∧
      (∀ b, b < h.next → b ≠ p → h2.mem b = h.mem b) ∧
      (∀ b x, b < h.next → (h2.setMem b x).mem r = h2.mem r)) := by
  intro h1 r hcl
  obtain ⟨p1, p2, p3, p4, p5⟩ := cloneH_spec (fuel + 1) h v (h1, r) hcl
  dsimp only at p1 p2 p3 p4 p5
  have hner : r ≠ p := by
    intro e
    rw [e] at p2
    exact absurd (Nat.lt_of_lt_of_le hp p2) (Nat.lt_irrefl p)
  constructor
  · refine ⟨h1.update p (.hpromise .fulfilled (some r) none none cbd), ?_, ?_, p2, ?_, ?_, ?_⟩
    · simp [smash_promise_resolve, promRun, hmem, hcl]
    · simp [Heap.update, Heap.setMem]
    · obtain ⟨hv, hv1, hv2⟩ := p5
      exact ⟨hv, by simpa [Heap.update, Heap.setMem, hner] using hv1, hv2⟩
    · intro b hb hbp
      simp only [Heap.update, Heap.setMem]
      rw [if_neg hbp]
      exact p1 b hb
    · intro b x hb
      have hne : b ≠ r := fun e => absurd (e ▸ hb) (by omega)
      simp [Heap.setMem, hne, Ne.symm hne]
  · refine ⟨h1.update p (.hpromise .rejected (some r) none none cbd), ?_, ?_, ?_, ?_, ?_⟩
    · simp [smash_promise_reject, promRun, hmem, hcl]
    · simp [Heap.update, Heap.setMem]
    · obtain ⟨hv, hv1, hv2⟩ := p5
      exact ⟨hv, by simpa [Heap.update, Heap.setMem, hner] using hv1, hv2⟩
    · intro b hb hbp
      simp only [Heap.update, Heap.setMem]
      rw [if_neg hbp]
      exact p1 b hb
    · intro b x hb
      have hne : b ≠ r := fun e => absurd (e ▸ hb) (by omega)
      simp [Heap.setMem, hne, Ne.symm hne]

/-- Witness for `promise_resolve_clone_ownership`: a pristine Pending
promise at cell 0 resolved with the Number at cell 1; the clone lands in
the fresh cell 2 and the promise is Fulfilled with it. -/
theorem promise_resolve_clone_ownership_witness :
    ∃ h', smash_promise_resolve fenvNull 4 (Heap.ofList
        [.hpromise .pending none none none none, .hnum 5]) 0 1 = some (h', []) ∧
      h'.mem 0 = some (.hpromise .fulfilled (some 2) none none none) := by
  obtain ⟨h1, r, hcl⟩ : ∃ h1 r, smash_value_cloneH 4 (Heap.ofList
      [.hpromise .pending none none none none, .hnum 5]) 1 = some (h1, r) := ⟨_, _, rfl⟩
  have hr : r = 2 := by
    have := congrArg (fun o => (Option.map Prod.snd o).getD 0) hcl
    simpa using this.symm
  obtain ⟨⟨h', w1, w2, -⟩, -⟩ := promise_resolve_clone_ownership fenvNull 3
    (Heap.ofList [.hpromise .pending none none none none, .hnum 5]) 0 1 none none
    (by decide) rfl h1 r hcl
  exact ⟨h', w1, hr ▸ w2⟩

/-- The function environment of the miswired-`then` scenario: native
function 0 (the fulfilment handler `f`) returns a fresh Number 42;
native function 1 (the rejection handler `g`) returns a fresh Number 7;
both ignore their arguments. -/
def fenvC4 : FEnv := fun fid h _args =>
  if fid = 0 then h.alloc (.hnum 42) else if fid = 1 then h.alloc (.hnum 7) else h.alloc .hnull

/-- The initial heap of the miswired-`then` scenario: a Pending promise
`p` at cell 0, the Function values `f` (id 0) at cell 1 and `g` (id 1)
at cell 2, and the rejection reason Number 99 at cell 3. -/
def heapC4 : Heap :=
  Heap.ofList [.hpromise .pending none none none none, .hfun 0, .hfun 1, .hnum 99]

/-- Claim C4 (code bug), evaluation at the failing input.  With
`q = smash_promise_then(p, f, g)` registered on the Pending promise `p`
(q is cell 4; the fulfil chain data cell 5 holds handler `f`), rejecting
`p` with the Number 99 runs `promise_chain_reject` with the FULFIL chain
data — `smash_promise_then` stored `fulfill_data` in the single
`callback_data` slot for both callbacks — so it is `f` (native id 0),
not `g` (native id 1), that is invoked with the cloned reason (cell 7),
and `q` ends up Fulfilled with `f`'s return value 42 (cloned into cell
9).  The event trace contains the `promise_chain_reject` invocation and
the call of `f`, and no call of `g`. -/
theorem promise_then_reject_miswired :
    (smash_promise_then fenvC4 20 heapC4 0 (some 1) (some 2)).map (fun x => x.2.1)
      = some 4 ∧
    ((smash_promise_then fenvC4 20 heapC4 0 (some 1) (some 2)).bind fun x =>
        smash_promise_reject fenvC4 20 x.1 0 3).map
        (fun y => (y.1.mem 4, y.1.mem 9, y.2))
      = some (some (.hpromise .fulfilled (some 9) none none none),
          some (.hnum 42),
          [Event.invoke .chainReject 7, Event.call 0 [7]]) := ⟨rfl, rfl⟩

end SmashSpec
